import Mathlib

/-!
Shallow embedding of the p5.axidraw core (`src/index.js`, the `AxiDraw`
class) and a verification of its specification.

Two models are developed:

* `AxiDraw` (a structure) with one Lean function per public method,
  capturing the synchronous bookkeeping each method performs: the
  `connected` flag, `targetPos`, `lastCommandedPos`, `mmPerSec`, the
  pending-command queue `commands`, and the driver calls made directly on
  the `ebb` driver without going through the `#command` queue.
* `SerState` with a small-step event semantics (`step`/`runFrom`),
  capturing the asynchronous dynamics of the `#command` serializer:
  operations are identified by the order of their submission, and events
  are "an operation is enqueued", "the running thunk resolved", "the
  running thunk rejected", and "stop() was called".

Numbers are modelled by `ℚ` (JavaScript arithmetic on the values involved
is exact except for `Math.sqrt`, which is discussed at `distanceSq`).
-/

/-- The number of motor steps per millimeter (source constant `STEPS_PER_MM`). -/
def STEPS_PER_MM : ℚ := 80

/-- The maximum speed in mm/s (source constant `MAX_MM_PER_SEC`). -/
def MAX_MM_PER_SEC : ℚ := 380

/-- The minimum speed in mm/s (source constant `MIN_MM_PER_SEC = 1.31 / STEPS_PER_MM`). -/
def MIN_MM_PER_SEC : ℚ := 1.31 / STEPS_PER_MM

/-- An `{x, y}` position in millimeters. -/
structure Pos where
  x : ℚ
  y : ℚ
deriving DecidableEq, Repr

/-- Square of the source's `distance(a, b)` helper.  The source computes
`Math.sqrt((a.x - b.x) ** 2 + (a.y - b.y) ** 2)`; we keep the square so as
to stay inside `ℚ`.  The only consumer of the distance is the
`timeToTarget < 1` test in `moveTo`, and for a positive speed that test is
equivalent to a polynomial inequality in the squared distance
(`timeToTarget_lt_one_iff` below). -/
def distanceSq (a b : Pos) : ℚ :=
  (a.x - b.x) ^ 2 + (a.y - b.y) ^ 2

/-- CoreXY inverse map used inside the thunk of `currentPosition`:
`x = 0.5 * ((m1Steps + m2Steps) / STEPS_PER_MM)`,
`y = 0.5 * ((m1Steps - m2Steps) / STEPS_PER_MM)`. -/
def currentPositionConvert (m1Steps m2Steps : ℚ) : Pos :=
  ⟨(1 / 2) * ((m1Steps + m2Steps) / STEPS_PER_MM),
   (1 / 2) * ((m1Steps - m2Steps) / STEPS_PER_MM)⟩

/-- Steps a pen-state thunk performs against the driver and the clock. -/
inductive PenAction where
  | queryPen
  | setPenState (down : Bool)
  | wait (ms : ℕ)
deriving DecidableEq, Repr

/-- Body of the thunk enqueued by `penUp`, as a function of the pen state
the device reports (`penIsDown`): query the pen, send
`setPenState(false)`, and wait 1000 ms only if the pen was down. -/
def penUpThunk (penIsDown : Bool) : List PenAction :=
  [.queryPen, .setPenState false] ++ (if penIsDown then [.wait 1000] else [])

/-- Body of the thunk enqueued by `penDown`, as a function of the pen state
the device reports (`penIsDown`): query the pen, send
`setPenState(true)`, and wait 1000 ms only if the pen was not down. -/
def penDownThunk (penIsDown : Bool) : List PenAction :=
  [.queryPen, .setPenState true] ++ (if !penIsDown then [.wait 1000] else [])

/-- Motor modes from the external `ebb-control` package; only the two the
source imports are modelled. -/
inductive MotorMode where
  | stepDiv16
  | disable
deriving DecidableEq, Repr

/-- Source constant `MOTOR_STEP_DIV16` (imported from `ebb-control`). -/
def MOTOR_STEP_DIV16 : MotorMode := .stepDiv16

/-- Source constant `MOTOR_DISABLE` (imported from `ebb-control`). -/
def MOTOR_DISABLE : MotorMode := .disable

/-- Servo channels from the external `ebb-control` package; only the pen
channel is used by the source. -/
inductive ServoChannel where
  | pen
deriving DecidableEq, Repr

/-- Source constant `SERVO_CHANNEL_PEN` (imported from `ebb-control`). -/
def SERVO_CHANNEL_PEN : ServoChannel := .pen

/-- Description of a thunk placed on the `#command` queue by a public
method: which driver interaction it will perform when it runs.  For
`move`, the squared distance and the speed determine the source's
`timeToTarget = 1000 * Math.sqrt(dist2) / mmPerSec` duration argument. -/
inductive Cmd where
  | enableMotors (m1 m2 : MotorMode)
  | queryStepPosition
  | pen (down : Bool)
  | servoOutput (height : ℤ) (channel : ServoChannel) (rate : ℕ)
  | move (dist2 mmPerSec stepsX stepsY : ℚ)
  | analogConfigure (channel : ℤ) (enabled : Bool)
  | analogRead (channel : ℤ)
  | memoryRead (address : ℤ)
deriving DecidableEq, Repr

/-- A call made directly on the `ebb` driver, bypassing the `#command`
queue (`connect`, `disconnect` and `stop` are the only methods that do
this). -/
inductive EbbDirect where
  | connect
  | disconnect
  | emergencyStop (disableMotors : Bool)
deriving DecidableEq, Repr

/-- The `AxiDraw` instance state: the fields assigned in the constructor,
plus a trace `ebbDirect` of the driver calls made outside the queue. -/
structure AxiDraw where
  connected : Bool
  targetPos : Pos
  lastCommandedPos : Pos
  mmPerSec : ℚ
  commands : List Cmd
  ebbDirect : List EbbDirect
deriving DecidableEq, Repr

/-- The constructor: `connected = false`, both positions `{x: 0, y: 0}`,
`mmPerSec = 25`, empty command queue. -/
def AxiDraw.init : AxiDraw :=
  { connected := false
    targetPos := ⟨0, 0⟩
    lastCommandedPos := ⟨0, 0⟩
    mmPerSec := 25
    commands := []
    ebbDirect := [] }

/-- `isBusy()`: `this.commands.length > 0`. -/
def AxiDraw.isBusy (s : AxiDraw) : Bool :=
  s.commands.length > 0

/-- `connect()`: early return if already connected, otherwise
`await this.ebb.connect()` then `this.connected = true`. -/
def AxiDraw.connect (s : AxiDraw) : AxiDraw :=
  if s.connected then s
  else { s with ebbDirect := s.ebbDirect ++ [.connect], connected := true }

/-- `disconnect()`: early return if not connected, otherwise
`await this.ebb.disconnect()` then `this.connected = false`. -/
def AxiDraw.disconnect (s : AxiDraw) : AxiDraw :=
  if !s.connected then s
  else { s with ebbDirect := s.ebbDirect ++ [.disconnect], connected := false }

/-- `enable()`: no-op when not connected, otherwise enqueues
`ebb.enableMotors(MOTOR_STEP_DIV16, MOTOR_STEP_DIV16)`. -/
def AxiDraw.enable (s : AxiDraw) : AxiDraw :=
  if !s.connected then s
  else { s with commands := s.commands ++ [.enableMotors MOTOR_STEP_DIV16 MOTOR_STEP_DIV16] }

/-- `disable()`: no-op when not connected, otherwise enqueues
`ebb.enableMotors(MOTOR_DISABLE, MOTOR_DISABLE)`. -/
def AxiDraw.disable (s : AxiDraw) : AxiDraw :=
  if !s.connected then s
  else { s with commands := s.commands ++ [.enableMotors MOTOR_DISABLE MOTOR_DISABLE] }

/-- `currentPosition()`: throws `Error('Not connected')` when not
connected, otherwise enqueues the step-position query (whose result is
converted by `currentPositionConvert`). -/
def AxiDraw.currentPosition (s : AxiDraw) : Except String AxiDraw :=
  if !s.connected then .error "Not connected"
  else .ok { s with commands := s.commands ++ [.queryStepPosition] }

/-- `penUp()`: no-op when not connected, otherwise enqueues the pen-up
thunk (whose runtime behavior is `penUpThunk`). -/
def AxiDraw.penUp (s : AxiDraw) : AxiDraw :=
  if !s.connected then s
  else { s with commands := s.commands ++ [.pen false] }

/-- `penDown()`: no-op when not connected, otherwise enqueues the pen-down
thunk (whose runtime behavior is `penDownThunk`). -/
def AxiDraw.penDown (s : AxiDraw) : AxiDraw :=
  if !s.connected then s
  else { s with commands := s.commands ++ [.pen true] }

/-- `setPenHeight(normalizedHeight)`: computes
`height = Math.floor(Math.max(Math.min((1 - normalizedHeight) * 65535, 65535), 0))`
and enqueues `ebb.servoOutput(height, SERVO_CHANNEL_PEN, 32000)`.  Note:
the source performs no `connected` check here. -/
def AxiDraw.setPenHeight (normalizedHeight : ℚ) (s : AxiDraw) : AxiDraw :=
  let height : ℤ := ⌊max (min ((1 - normalizedHeight) * 65535) 65535) 0⌋
  { s with commands := s.commands ++ [.servoOutput height SERVO_CHANNEL_PEN 32000] }

/-- `setSpeed(mmPerSec)`: stores
`Math.max(Math.min(mmPerSec, MAX_MM_PER_SEC), MIN_MM_PER_SEC)`
synchronously. -/
def AxiDraw.setSpeed (mmPerSec : ℚ) (s : AxiDraw) : AxiDraw :=
  { s with mmPerSec := max (min mmPerSec MAX_MM_PER_SEC) MIN_MM_PER_SEC }

/-- `moveTo(x, y)`: no-op when not connected; sets `targetPos` first; then
computes the distance from `lastCommandedPos` and
`timeToTarget = 1000 * (distance / mmPerSec)` and returns early when
`timeToTarget < 1`; otherwise computes the step deltas, updates
`lastCommandedPos` synchronously, and enqueues the move thunk.  The test
`timeToTarget < 1` is expressed on the squared distance
(`1000000 * d2 < mmPerSec ^ 2`), which agrees with the source's test for
every positive speed (`timeToTarget_lt_one_iff`); the speed is always
positive in any state the class can reach, since the constructor sets 25
and `setSpeed` clamps into `[MIN_MM_PER_SEC, MAX_MM_PER_SEC]`. -/
def AxiDraw.moveTo (x y : ℚ) (s : AxiDraw) : AxiDraw :=
  if !s.connected then s
  else
    let s1 : AxiDraw := { s with targetPos := ⟨x, y⟩ }
    let d2 : ℚ := distanceSq s1.lastCommandedPos s1.targetPos
    if 1000000 * d2 < s1.mmPerSec ^ 2 then s1
    else
      let delta : Pos := ⟨s1.targetPos.x - s1.lastCommandedPos.x,
                          s1.targetPos.y - s1.lastCommandedPos.y⟩
      let steps : Pos := ⟨delta.x * STEPS_PER_MM, delta.y * STEPS_PER_MM⟩
      { s1 with
        lastCommandedPos := s1.targetPos
        commands := s1.commands ++ [.move d2 s1.mmPerSec steps.x steps.y] }

/-- `stop()`: resolves immediately when not connected; otherwise sends
`ebb.emergencyStop(false)` directly (not through the queue) and replaces
`this.commands` by the empty array. -/
def AxiDraw.stop (s : AxiDraw) : AxiDraw :=
  if !s.connected then s
  else { s with ebbDirect := s.ebbDirect ++ [.emergencyStop false], commands := [] }

/-- `analogConfigure(channel, enabled)`: no-op when not connected; throws
`Error('Invalid channel number')` when `channel < 0 || channel > 12`;
otherwise enqueues the driver call. -/
def AxiDraw.analogConfigure (channel : ℤ) (enabled : Bool) (s : AxiDraw) :
    Except String AxiDraw :=
  if !s.connected then .ok s
  else if channel < 0 ∨ channel > 12 then .error "Invalid channel number"
  else .ok { s with commands := s.commands ++ [.analogConfigure channel enabled] }

/-- `analogRead(channel)`: resolves with no value when not connected;
otherwise enqueues the driver read. -/
def AxiDraw.analogRead (channel : ℤ) (s : AxiDraw) : AxiDraw :=
  if !s.connected then s
  else { s with commands := s.commands ++ [.analogRead channel] }

/-- `memoryRead(address)`: resolves with no value when not connected;
otherwise enqueues the driver read. -/
def AxiDraw.memoryRead (address : ℤ) (s : AxiDraw) : AxiDraw :=
  if !s.connected then s
  else { s with commands := s.commands ++ [.memoryRead address] }

/-- A freshly connected instance: `new AxiDraw()` followed by `connect()`. -/
def AxiDraw.connectedInit : AxiDraw :=
  AxiDraw.init.connect

/-!
### Event semantics of the `#command` serializer

Operations submitted to `#command` are numbered `0, 1, 2, ...` in
submission order.  A `SerState` records the instance's `commands` array
(as the list of operation ids whose `executeCommand` closure is in the
array), the ids of thunks that have been invoked but whose promise has
not settled (`running`), and three observation traces: the order in which
thunks were started (`startTrace`, the order the driver sees operations
begin), the order in which callers' promises were fulfilled (`doneTrace`),
and the calls the driver receives (`drvTrace`).  Events:

* `enqueue`: a public method calls `#command(cmdFn)`.  The closure is
  pushed; if the array was empty beforehand the closure is invoked at
  once, starting the thunk.
* `complete i`: the running thunk `i`'s promise resolves.  Its `.then`
  handler fulfills the caller, shifts the head of the `commands` array,
  and invokes the new head closure if the array is non-empty.
* `fail i`: the running thunk `i`'s promise rejects.  The `.then` call in
  `#command` registers no rejection handler, so nothing at all happens to
  the instance: the caller's promise is neither fulfilled nor rejected,
  no element is shifted, and no next closure is invoked.
* `stop`: `stop()` is called.  When connected it sends
  `ebb.emergencyStop(false)` directly to the driver and replaces the
  `commands` array by an empty one (the running thunk, if any, is not
  aborted).
* `connect`: `connect()` resolves, setting `connected`.
-/

/-- An event in the life of the serializer. -/
inductive Ev where
  | connect
  | enqueue
  | complete (i : ℕ)
  | fail (i : ℕ)
  | stop
deriving DecidableEq, Repr

/-- A call observed by the driver: the first driver interaction of
operation `i` (the moment the driver sees operation `i` begin), or the
emergency stop sent by `stop()`. -/
inductive DrvEv where
  | op (i : ℕ)
  | estop
deriving DecidableEq, Repr

/-- State of the serializer together with its observation traces. -/
structure SerState where
  connected : Bool
  queue : List ℕ
  running : List ℕ
  nextId : ℕ
  startTrace : List ℕ
  doneTrace : List ℕ
  drvTrace : List DrvEv
deriving DecidableEq, Repr

/-- The serializer of a fresh instance. -/
def SerState.init : SerState :=
  { connected := false
    queue := []
    running := []
    nextId := 0
    startTrace := []
    doneTrace := []
    drvTrace := [] }

/-- `isBusy()` on the serializer state: `this.commands.length > 0`. -/
def SerState.isBusy (s : SerState) : Bool :=
  s.queue.length > 0

/-- Invoking an operation's `executeCommand` closure: the thunk starts
running and the driver observes the operation begin. -/
def startOp (s : SerState) (i : ℕ) : SerState :=
  { s with
    running := s.running ++ [i]
    startTrace := s.startTrace ++ [i]
    drvTrace := s.drvTrace ++ [.op i] }

/-- One event of the serializer.  `none` means the event cannot occur in
this state (a thunk that is not running cannot settle). -/
def step (s : SerState) : Ev → Option SerState
  | .connect => some { s with connected := true }
  | .enqueue =>
      let i := s.nextId
      let pending := !s.queue.isEmpty
      let s1 : SerState := { s with queue := s.queue ++ [i], nextId := i + 1 }
      some (if pending then s1 else startOp s1 i)
  | .complete i =>
      if i ∈ s.running then
        let s1 : SerState :=
          { s with
            doneTrace := s.doneTrace ++ [i]
            running := s.running.erase i
            queue := s.queue.tail }
        some (if s1.queue.isEmpty then s1 else startOp s1 (s1.queue.headD 0))
      else none
  | .fail i =>
      if i ∈ s.running then some { s with running := s.running.erase i }
      else none
  | .stop =>
      if s.connected then
        some { s with drvTrace := s.drvTrace ++ [.estop], queue := [] }
      else some s

/-- Run a list of events from a state. -/
def runFrom (s : SerState) : List Ev → Option SerState
  | [] => some s
  | ev :: evs => (step s ev).bind (fun s1 => runFrom s1 evs)

/-- Run a list of events from the initial state. -/
def run (evs : List Ev) : Option SerState :=
  runFrom SerState.init evs

/-- An event of the kind claim C3 quantifies over: a submission, a
successful execution, or the connection completing — no `stop` and no
thunk failure. -/
def Ev.isPure : Ev → Prop
  | .connect => True
  | .enqueue => True
  | .complete _ => True
  | .fail _ => False
  | .stop => False

instance : DecidablePred Ev.isPure := by
  intro e
  cases e <;> simp [Ev.isPure] <;> infer_instance

/-- FIFO invariant of the serializer under pure events: `k` operations
have completed, in submission order; the queue holds exactly the ids
`k, ..., nextId - 1`; and either the queue is empty and nothing is
running, or the head `k` is the unique running operation. -/
def FifoInv (s : SerState) : Prop :=
  ∃ k, s.doneTrace = List.range k ∧ k ≤ s.nextId ∧
    s.queue = List.range' k (s.nextId - k) ∧
    ((k = s.nextId ∧ s.running = [] ∧ s.startTrace = List.range k) ∨
     (k < s.nextId ∧ s.running = [k] ∧ s.startTrace = List.range (k + 1)))

/-- Every id in the queue was allocated by a past `enqueue`. -/
def QueueBound (s : SerState) : Prop :=
  ∀ j ∈ s.queue, j < s.nextId

/-- Operation `i` is absent from the queue, has never been started, and
can never be re-allocated.  Once true, no event can ever start `i`. -/
def NeverStarted (i : ℕ) (s : SerState) : Prop :=
  i ∉ s.queue ∧ i ∉ s.startTrace ∧ i < s.nextId

/-- State after operation 0's thunk has rejected with operation 1 (and
possibly more) still queued: nothing is running, nothing has completed,
and the dead operation 0 still blocks the head of the queue. -/
def StallInv (s : SerState) : Prop :=
  s.running = [] ∧ s.doneTrace = [] ∧ s.startTrace = [0] ∧
    ∃ t, s.queue = 0 :: 1 :: t

/-- Final state of the scenario witnessing the FIFO theorem: two
operations enqueued and both completed. -/
def fifoWitnessState : SerState :=
  { connected := true, queue := [], running := [], nextId := 2,
    startTrace := [0, 1], doneTrace := [0, 1], drvTrace := [.op 0, .op 1] }

/-- State witnessing the failure stall: operation 0 rejected while
operations 1 and 2 wait behind it. -/
def stallWitnessState : SerState :=
  { connected := true, queue := [0, 1, 2], running := [], nextId := 3,
    startTrace := [0], doneTrace := [], drvTrace := [.op 0] }

/-- State witnessing `stop()`: operation 0 in flight, operations 1-3
queued but not started. -/
def stopWitnessPre : SerState :=
  { connected := true, queue := [0, 1, 2, 3], running := [0], nextId := 4,
    startTrace := [0], doneTrace := [], drvTrace := [.op 0] }

/-- `stopWitnessPre` right after `stop()`. -/
def stopWitnessPost : SerState :=
  { connected := true, queue := [], running := [0], nextId := 4,
    startTrace := [0], doneTrace := [], drvTrace := [.op 0, .estop] }

/-!
### Theorems
-/

theorem distanceSq_nonneg (a b : Pos) : 0 ≤ distanceSq a b := by
  unfold distanceSq
  positivity

/-- The `timeToTarget < 1` test of `moveTo` (with
`timeToTarget = 1000 * sqrt d2 / v`) agrees with the polynomial test
`1000000 * d2 < v ^ 2` used in the embedding, for every nonnegative
squared distance and positive speed. -/
theorem timeToTarget_lt_one_iff (d2 v : ℝ) (hd : 0 ≤ d2) (hv : 0 < v) :
    1000 * Real.sqrt d2 / v < 1 ↔ 1000000 * d2 < v ^ 2 := by
  rw [div_lt_one hv]
  constructor
  · intro h
    have h0 : 0 ≤ 1000 * Real.sqrt d2 := by positivity
    have h2 : (1000 * Real.sqrt d2) ^ 2 < v ^ 2 := by
      exact pow_lt_pow_left₀ h h0 two_ne_zero
    calc 1000000 * d2 = (1000 * Real.sqrt d2) ^ 2 := by
          rw [mul_pow, Real.sq_sqrt hd]; ring
      _ < v ^ 2 := h2
  · intro h
    have h2 : (1000 * Real.sqrt d2) ^ 2 < v ^ 2 := by
      calc (1000 * Real.sqrt d2) ^ 2 = 1000000 * d2 := by
            rw [mul_pow, Real.sq_sqrt hd]; ring
        _ < v ^ 2 := h
    exact lt_of_pow_lt_pow_left₀ 2 (le_of_lt hv) h2

/-- C5: the CoreXY inverse map used by `currentPosition` round-trips the
forward step encoding: feeding `m1Steps = dx*80 + dy*80` and
`m2Steps = dx*80 - dy*80` through the inverse formula reproduces
`(dx, dy)` exactly over the rationals. -/
theorem corexy_inverse_round_trip (dx dy : ℚ) :
    currentPositionConvert (dx * 80 + dy * 80) (dx * 80 - dy * 80) = ⟨dx, dy⟩ := by
  unfold currentPositionConvert STEPS_PER_MM
  refine congrArg₂ Pos.mk ?_ ?_ <;> ring

/-- C6: `setSpeed` stores a clamped speed in
`[MIN_MM_PER_SEC, MAX_MM_PER_SEC] = [1.31/80, 380]` synchronously,
without touching the command queue or the driver and without rejecting;
`setSpeed(-5)` yields `MIN_MM_PER_SEC`, `setSpeed(1000)` yields
`MAX_MM_PER_SEC`, and the constructor default is 25 mm/s. -/
theorem setSpeed_clamps : ∀ (s : AxiDraw) (v : ℚ),
    MIN_MM_PER_SEC ≤ (s.setSpeed v).mmPerSec ∧
    (s.setSpeed v).mmPerSec ≤ MAX_MM_PER_SEC ∧
    (s.setSpeed v).commands = s.commands ∧
    (s.setSpeed v).ebbDirect = s.ebbDirect ∧
    (s.setSpeed (-5)).mmPerSec = MIN_MM_PER_SEC ∧
    (s.setSpeed 1000).mmPerSec = MAX_MM_PER_SEC ∧
    MIN_MM_PER_SEC = 1.31 / 80 ∧
    AxiDraw.init.mmPerSec = 25 := by
  intro s v
  have hminmax : MIN_MM_PER_SEC ≤ MAX_MM_PER_SEC := by
    norm_num [MIN_MM_PER_SEC, MAX_MM_PER_SEC, STEPS_PER_MM]
  refine ⟨le_max_right _ _, ?_, rfl, rfl, ?_, ?_, rfl, rfl⟩
  · exact max_le (le_trans (min_le_right _ _) le_rfl) hminmax
  · show max (min (-5) MAX_MM_PER_SEC) MIN_MM_PER_SEC = MIN_MM_PER_SEC
    norm_num [MIN_MM_PER_SEC, MAX_MM_PER_SEC, STEPS_PER_MM]
  · show max (min 1000 MAX_MM_PER_SEC) MIN_MM_PER_SEC = MAX_MM_PER_SEC
    norm_num [MIN_MM_PER_SEC, MAX_MM_PER_SEC, STEPS_PER_MM]

/-- C8: a pen-state thunk queries the device first, then issues the
driver pen-state command, and performs the fixed 1000 ms settle wait if
and only if the queried state differs from the requested one; in
particular a `penDown` thunk run while the pen is already down has no
settle wait, and a `penUp` thunk run while the pen is down waits. -/
theorem pen_settle_iff_transition : ∀ q : Bool,
    penUpThunk q = .queryPen :: .setPenState false ::
      (if q ≠ false then [.wait 1000] else []) ∧
    penDownThunk q = .queryPen :: .setPenState true ::
      (if q ≠ true then [.wait 1000] else []) ∧
    (PenAction.wait 1000 ∈ penUpThunk q ↔ q ≠ false) ∧
    (PenAction.wait 1000 ∈ penDownThunk q ↔ q ≠ true) ∧
    PenAction.wait 1000 ∉ penDownThunk true ∧
    PenAction.wait 1000 ∈ penUpThunk true := by
  decide

/-- C2 (counterexample): `setPenHeight` performs no `connected` check.
On a fresh, unconnected instance, `setPenHeight(0.5)` enqueues a servo
command on the serializer, contradicting the claim that every public
operation other than `connect` enqueues nothing while disconnected. -/
theorem setPenHeight_enqueues_while_disconnected :
    AxiDraw.init.connected = false ∧
    AxiDraw.init.commands = [] ∧
    (AxiDraw.init.setPenHeight (1 / 2)).commands =
      [.servoOutput 32767 SERVO_CHANNEL_PEN 32000] := by
  refine ⟨rfl, rfl, ?_⟩
  show ([] : List Cmd) ++ [.servoOutput ⌊max (min ((1 - (1 / 2 : ℚ)) * 65535) 65535) 0⌋
    SERVO_CHANNEL_PEN 32000] = [.servoOutput 32767 SERVO_CHANNEL_PEN 32000]
  norm_num

/-- C2 (amended): every public operation except `connect` and
`setPenHeight`, when invoked while `connected` is false, resolves as a
no-op or fails, without issuing any driver call and without enqueuing
anything on the serializer. -/
theorem disconnected_ops_noop (s : AxiDraw) (h : s.connected = false) :
    s.disconnect = s ∧
    s.enable = s ∧
    s.disable = s ∧
    s.currentPosition = .error "Not connected" ∧
    s.penUp = s ∧
    s.penDown = s ∧
    (∀ v, (s.setSpeed v).commands = s.commands ∧
      (s.setSpeed v).ebbDirect = s.ebbDirect) ∧
    (∀ x y, s.moveTo x y = s) ∧
    s.stop = s ∧
    (∀ c e, s.analogConfigure c e = .ok s) ∧
    (∀ c, s.analogRead c = s) ∧
    (∀ a, s.memoryRead a = s) := by
  refine ⟨?_, ?_, ?_, ?_, ?_, ?_, fun v => ⟨rfl, rfl⟩, fun x y => ?_, ?_,
    fun c e => ?_, fun c => ?_, fun a => ?_⟩ <;>
    simp [AxiDraw.disconnect, AxiDraw.enable, AxiDraw.disable,
      AxiDraw.currentPosition, AxiDraw.penUp, AxiDraw.penDown,
      AxiDraw.moveTo, AxiDraw.stop, AxiDraw.analogConfigure,
      AxiDraw.analogRead, AxiDraw.memoryRead, h]

/-- Witness for `disconnected_ops_noop` at the fresh instance. -/
theorem disconnected_ops_noop_witness :
    AxiDraw.init.disconnect = AxiDraw.init ∧
    AxiDraw.init.enable = AxiDraw.init ∧
    AxiDraw.init.disable = AxiDraw.init ∧
    AxiDraw.init.currentPosition = .error "Not connected" ∧
    AxiDraw.init.penUp = AxiDraw.init ∧
    AxiDraw.init.penDown = AxiDraw.init ∧
    (∀ v, (AxiDraw.init.setSpeed v).commands = AxiDraw.init.commands ∧
      (AxiDraw.init.setSpeed v).ebbDirect = AxiDraw.init.ebbDirect) ∧
    (∀ x y, AxiDraw.init.moveTo x y = AxiDraw.init) ∧
    AxiDraw.init.stop = AxiDraw.init ∧
    (∀ c e, AxiDraw.init.analogConfigure c e = .ok AxiDraw.init) ∧
    (∀ c, AxiDraw.init.analogRead c = AxiDraw.init) ∧
    (∀ a, AxiDraw.init.memoryRead a = AxiDraw.init) :=
  disconnected_ops_noop AxiDraw.init rfl

/-- C10: a `disconnect()` on a connected instance calls the driver's
close directly — it is not enqueued on the serializer — and sets
`connected` to false, leaving the command queue, `targetPos`,
`lastCommandedPos` and the speed untouched (in particular it neither
waits for nor cancels pending queued operations). -/
theorem disconnect_immediate (s : AxiDraw) (h : s.connected = true) :
    s.disconnect = { s with
      connected := false
      ebbDirect := s.ebbDirect ++ [.disconnect] } := by
  simp [AxiDraw.disconnect, h]

/-- Witness for `disconnect_immediate` on a freshly connected instance. -/
theorem disconnect_immediate_witness :
    AxiDraw.connectedInit.disconnect =
      { AxiDraw.connectedInit with
        connected := false
        ebbDirect := AxiDraw.connectedInit.ebbDirect ++ [.disconnect] } :=
  disconnect_immediate AxiDraw.connectedInit rfl

theorem moveTo_enqueue_spec (s : AxiDraw) (x y : ℚ) (hc : s.connected = true)
    (hne : (s.moveTo x y).commands ≠ s.commands) :
    (s.moveTo x y).commands = s.commands ++
      [Cmd.move (distanceSq s.lastCommandedPos ⟨x, y⟩) s.mmPerSec
        ((x - s.lastCommandedPos.x) * STEPS_PER_MM)
        ((y - s.lastCommandedPos.y) * STEPS_PER_MM)] ∧
    (s.moveTo x y).lastCommandedPos = ⟨x, y⟩ ∧
    (s.moveTo x y).targetPos = ⟨x, y⟩ ∧
    (s.moveTo x y).connected = true ∧
    (s.moveTo x y).mmPerSec = s.mmPerSec := by
  by_cases hg : 1000000 * distanceSq s.lastCommandedPos ⟨x, y⟩ < s.mmPerSec ^ 2
  · exact absurd (by simp [AxiDraw.moveTo, hc, hg]) hne
  · simp [AxiDraw.moveTo, hc, hg]

/-- C4: every connected `moveTo(x, y)` call that enqueues a driver move
passes step counts `stepsX = (x - lastCommandedX) * 80` and
`stepsY = (y - lastCommandedY) * 80` computed from the value of
`lastCommandedPos` before the call, and updates `lastCommandedPos` to
`(x, y)` synchronously, at call time — so a second `moveTo` issued
back-to-back computes its delta from `(x, y)` even though the first has
not completed. -/
theorem moveTo_corexy_steps (s : AxiDraw) (x y : ℚ) (hc : s.connected = true)
    (hne : (s.moveTo x y).commands ≠ s.commands) :
    ((s.moveTo x y).commands = s.commands ++
      [Cmd.move (distanceSq s.lastCommandedPos ⟨x, y⟩) s.mmPerSec
        ((x - s.lastCommandedPos.x) * STEPS_PER_MM)
        ((y - s.lastCommandedPos.y) * STEPS_PER_MM)] ∧
     (s.moveTo x y).lastCommandedPos = ⟨x, y⟩ ∧
     (s.moveTo x y).targetPos = ⟨x, y⟩) ∧
    ∀ x2 y2, ((s.moveTo x y).moveTo x2 y2).commands ≠ (s.moveTo x y).commands →
      ((s.moveTo x y).moveTo x2 y2).commands = (s.moveTo x y).commands ++
        [Cmd.move (distanceSq ⟨x, y⟩ ⟨x2, y2⟩) s.mmPerSec
          ((x2 - x) * STEPS_PER_MM) ((y2 - y) * STEPS_PER_MM)] := by
  obtain ⟨h1, h2, h3, h4, h5⟩ := moveTo_enqueue_spec s x y hc hne
  refine ⟨⟨h1, h2, h3⟩, fun x2 y2 hne2 => ?_⟩
  obtain ⟨g1, -, -, -, -⟩ := moveTo_enqueue_spec (s.moveTo x y) x2 y2 h4 hne2
  rw [g1, h2, h5]

/-- Witness for `moveTo_corexy_steps`: a 3-4-5 move from the origin on a
freshly connected instance. -/
theorem moveTo_corexy_steps_witness :
    (AxiDraw.connectedInit.moveTo 3 4).commands = AxiDraw.connectedInit.commands ++
      [Cmd.move (distanceSq AxiDraw.connectedInit.lastCommandedPos ⟨3, 4⟩)
        AxiDraw.connectedInit.mmPerSec
        ((3 - AxiDraw.connectedInit.lastCommandedPos.x) * STEPS_PER_MM)
        ((4 - AxiDraw.connectedInit.lastCommandedPos.y) * STEPS_PER_MM)] :=
  (moveTo_corexy_steps AxiDraw.connectedInit 3 4 rfl (by
    norm_num [AxiDraw.moveTo, AxiDraw.connectedInit, AxiDraw.connect,
      AxiDraw.init, distanceSq])).1.1

/-- C7: a connected `moveTo(x, y)` whose computed travel time
`1000 * distance / mmPerSec` is below 1 ms completes without enqueuing
anything (hence without any driver move call): `targetPos` is set to
`(x, y)` and every other field — in particular `lastCommandedPos` and the
command queue — is left unchanged. -/
theorem moveTo_skip_short (s : AxiDraw) (x y : ℚ) (hc : s.connected = true)
    (hv : 0 < s.mmPerSec)
    (ht : 1000 * Real.sqrt ((distanceSq s.lastCommandedPos ⟨x, y⟩ : ℚ) : ℝ) /
      ((s.mmPerSec : ℚ) : ℝ) < 1) :
    s.moveTo x y = { s with targetPos := ⟨x, y⟩ } := by
  have hd : (0 : ℝ) ≤ ((distanceSq s.lastCommandedPos ⟨x, y⟩ : ℚ) : ℝ) := by
    exact_mod_cast distanceSq_nonneg _ _
  have hv' : (0 : ℝ) < ((s.mmPerSec : ℚ) : ℝ) := by exact_mod_cast hv
  have hg' := (timeToTarget_lt_one_iff _ _ hd hv').mp ht
  have hg : 1000000 * distanceSq s.lastCommandedPos ⟨x, y⟩ < s.mmPerSec ^ 2 := by
    exact_mod_cast hg'
  simp [AxiDraw.moveTo, hc, hg]

/-- Witness for `moveTo_skip_short`: a zero-distance move on a freshly
connected instance. -/
theorem moveTo_skip_short_witness :
    AxiDraw.connectedInit.moveTo 0 0 =
      { AxiDraw.connectedInit with targetPos := ⟨0, 0⟩ } :=
  moveTo_skip_short AxiDraw.connectedInit 0 0 rfl (by decide)
    (by norm_num [AxiDraw.connectedInit, AxiDraw.connect, AxiDraw.init,
      distanceSq, Real.sqrt_zero])

theorem runFrom_append (s : SerState) (l1 l2 : List Ev) :
    runFrom s (l1 ++ l2) = (runFrom s l1).bind fun s1 => runFrom s1 l2 := by
  induction l1 generalizing s with
  | nil => simp [runFrom]
  | cons e l ih =>
    simp only [List.cons_append, runFrom]
    cases h : step s e with
    | none => simp
    | some s1 => simp [ih]

/-- Preservation of a state predicate along a run whose events all
satisfy an event predicate. -/
theorem runFrom_inv_of {P : SerState → Prop} {Q : Ev → Prop}
    (hstep : ∀ s e s', Q e → P s → step s e = some s' → P s') :
    ∀ (evs : List Ev) (s s' : SerState), (∀ e ∈ evs, Q e) → P s →
      runFrom s evs = some s' → P s' := by
  intro evs
  induction evs with
  | nil =>
    intro s s' _ hp hr
    simp only [runFrom, Option.some_inj] at hr
    exact hr ▸ hp
  | cons e l ih =>
    intro s s' hq hp hr
    simp only [runFrom] at hr
    cases h : step s e with
    | none => rw [h] at hr; simp at hr
    | some s1 =>
      rw [h] at hr
      simp only [Option.some_bind] at hr
      exact ih s1 s' (fun e' he' => hq e' (List.mem_cons_of_mem _ he'))
        (hstep s e s1 (hq e (List.mem_cons_self _ _)) hp h) hr

theorem fifoInv_init : FifoInv SerState.init :=
  ⟨0, rfl, le_rfl, rfl, Or.inl ⟨rfl, rfl, rfl⟩⟩

theorem fifoInv_step (s : SerState) (e : Ev) (s' : SerState)
    (hq : e.isPure) (h : FifoInv s) (hs : step s e = some s') : FifoInv s' := by
  obtain ⟨k, hdone, hk, hqueue, hcase⟩ := h
  cases e with
  | connect =>
    simp only [step, Option.some_inj] at hs
    subst hs
    exact ⟨k, hdone, hk, hqueue, hcase⟩
  | enqueue =>
    simp only [step, Option.some_inj] at hs
    rcases hcase with ⟨hkeq, hrun, hstart⟩ | ⟨hklt, hrun, hstart⟩
    · subst hkeq
      have hqnil : s.queue = [] := by simp [hqueue]
      rw [hqnil] at hs
      simp only [List.isEmpty_nil, Bool.not_true] at hs
      rw [if_neg (by simp)] at hs
      subst hs
      refine ⟨s.nextId, ?_, ?_, ?_, Or.inr ⟨?_, ?_, ?_⟩⟩
      · simpa [startOp] using hdone
      · simp only [startOp]
        omega
      · simp only [startOp]
        rw [show s.nextId + 1 - s.nextId = 1 by omega]
        simp
      · simp only [startOp]
        omega
      · simp [startOp, hrun]
      · simp [startOp, hstart, List.range_succ]
    · have hqne : s.queue.isEmpty = false := by
        rw [List.isEmpty_eq_false]
        rw [hqueue]
        simp only [ne_eq, List.range'_eq_nil]
        omega
      rw [hqne] at hs
      simp only [Bool.not_false, if_true] at hs
      subst hs
      refine ⟨k, hdone, by show k ≤ s.nextId + 1; omega, ?_,
        Or.inr ⟨by show k < s.nextId + 1; omega, hrun, hstart⟩⟩
      show s.queue ++ [s.nextId] = List.range' k (s.nextId + 1 - k)
      rw [show s.nextId + 1 - k = (s.nextId - k) + 1 by omega, List.range'_concat,
        show k + 1 * (s.nextId - k) = s.nextId by omega, hqueue]
  | complete i =>
    simp only [step] at hs
    by_cases hik : i ∈ s.running
    case neg => rw [if_neg hik] at hs; exact Option.noConfusion hs
    rcases hcase with ⟨hkeq, hrun, hstart⟩ | ⟨hklt, hrun, hstart⟩
    · rw [hrun] at hik; simp at hik
    have hik' : i = k := by rw [hrun] at hik; simpa using hik
    subst hik'
    rw [if_pos hik] at hs
    simp only [Option.some_inj] at hs
    obtain ⟨m, hm⟩ : ∃ m, s.nextId - i = m + 1 := ⟨s.nextId - i - 1, by omega⟩
    have hqcons : s.queue = i :: List.range' (i + 1) m := by
      rw [hqueue, hm, List.range'_succ]
    have herase : s.running.erase i = [] := by rw [hrun, List.erase_cons_head]
    cases m with
    | zero =>
      have htail : s.queue.tail = [] := by rw [hqcons]; rfl
      rw [htail] at hs
      simp only [List.isEmpty_nil, if_true] at hs
      subst hs
      refine ⟨i + 1, ?_, by show i + 1 ≤ s.nextId; omega, ?_,
        Or.inl ⟨by show i + 1 = s.nextId; omega, herase, hstart⟩⟩
      · simp [hdone, List.range_succ]
      · show ([] : List ℕ) = List.range' (i + 1) (s.nextId - (i + 1))
        rw [show s.nextId - (i + 1) = 0 by omega, List.range'_zero]
    | succ m' =>
      have htail : s.queue.tail = (i + 1) :: List.range' (i + 2) m' := by
        rw [hqcons, List.tail_cons, List.range'_succ]
      rw [htail] at hs
      simp only [List.isEmpty_cons, Bool.false_eq_true, if_false] at hs
      subst hs
      refine ⟨i + 1, ?_, ?_, ?_, Or.inr ⟨?_, ?_, ?_⟩⟩
      · simp [startOp, hdone, List.range_succ]
      · simp only [startOp]
        show i + 1 ≤ s.nextId
        omega
      · simp only [startOp]
        show (i + 1) :: List.range' (i + 2) m' = List.range' (i + 1) (s.nextId - (i + 1))
        rw [show s.nextId - (i + 1) = m' + 1 by omega, List.range'_succ]
      · simp only [startOp]
        show i + 1 < s.nextId
        omega
      · simp [startOp, herase]
      · simp [startOp, hstart, List.range_succ]
  | fail i => exact absurd hq (by simp [Ev.isPure])
  | stop => exact absurd hq (by simp [Ev.isPure])
theorem fifoInv_complete_start (s s' : SerState) (i : ℕ) (h : FifoInv s)
    (hs : step s (.complete i) = some s') :
    s'.startTrace = s.startTrace ∨ s'.startTrace = s.startTrace ++ [i + 1] := by
  obtain ⟨k, hdone, hk, hqueue, hcase⟩ := h
  simp only [step] at hs
  by_cases hik : i ∈ s.running
  case neg => rw [if_neg hik] at hs; exact Option.noConfusion hs
  rcases hcase with ⟨hkeq, hrun, hstart⟩ | ⟨hklt, hrun, hstart⟩
  · rw [hrun] at hik; simp at hik
  have hik' : i = k := by rw [hrun] at hik; simpa using hik
  subst hik'
  rw [if_pos hik] at hs
  simp only [Option.some_inj] at hs
  obtain ⟨m, hm⟩ : ∃ m, s.nextId - i = m + 1 := ⟨s.nextId - i - 1, by omega⟩
  have hqcons : s.queue = i :: List.range' (i + 1) m := by
    rw [hqueue, hm, List.range'_succ]
  cases m with
  | zero =>
    have htail : s.queue.tail = [] := by rw [hqcons]; rfl
    rw [htail] at hs
    simp only [List.isEmpty_nil, if_true] at hs
    subst hs
    exact Or.inl rfl
  | succ m' =>
    have htail : s.queue.tail = (i + 1) :: List.range' (i + 2) m' := by
      rw [hqcons, List.tail_cons, List.range'_succ]
    rw [htail] at hs
    simp only [List.isEmpty_cons, Bool.false_eq_true, if_false] at hs
    subst hs
    exact Or.inr (by simp [startOp])

/-- C3: under any sequence of submissions interleaved with successful
executions, the serializer completes operations in exactly the order
they were enqueued (the completion trace is `[0, 1, ..., k-1]`), at most
one operation is ever running, every operation that the driver has seen
start was preceded by the completion of all earlier operations, and the
only way a new operation starts during a completion event for operation
`n` is as operation `n + 1`. -/
theorem serializer_fifo_order (evs : List Ev) (s : SerState)
    (hp : ∀ e ∈ evs, e.isPure) (hr : run evs = some s) :
    s.doneTrace = List.range s.doneTrace.length ∧
    s.running.length ≤ 1 ∧
    (∀ j ∈ s.startTrace, ∀ i, i < j → i ∈ s.doneTrace) ∧
    (∀ i s2, step s (.complete i) = some s2 →
      s2.startTrace = s.startTrace ∨ s2.startTrace = s.startTrace ++ [i + 1]) := by
  have hinv : FifoInv s :=
    runFrom_inv_of fifoInv_step evs SerState.init s hp fifoInv_init hr
  obtain ⟨k, hdone, hk, hqueue, hcase⟩ := hinv
  refine ⟨?_, ?_, ?_, fun i s2 h2 =>
    fifoInv_complete_start s s2 i ⟨k, hdone, hk, hqueue, hcase⟩ h2⟩
  · rw [hdone, List.length_range]
  · rcases hcase with ⟨_, hrun, _⟩ | ⟨_, hrun, _⟩ <;> simp [hrun]
  · intro j hj i hij
    rw [hdone, List.mem_range]
    rcases hcase with ⟨_, _, hstart⟩ | ⟨_, _, hstart⟩ <;>
      (rw [hstart, List.mem_range] at hj; omega)

theorem serializer_fifo_order_witness :
    fifoWitnessState.doneTrace = List.range fifoWitnessState.doneTrace.length ∧
    fifoWitnessState.running.length ≤ 1 ∧
    (∀ j ∈ fifoWitnessState.startTrace, ∀ i, i < j → i ∈ fifoWitnessState.doneTrace) ∧
    (∀ i s2, step fifoWitnessState (.complete i) = some s2 →
      s2.startTrace = fifoWitnessState.startTrace ∨
      s2.startTrace = fifoWitnessState.startTrace ++ [i + 1]) :=
  serializer_fifo_order [.connect, .enqueue, .enqueue, .complete 0, .complete 1]
    fifoWitnessState (by decide) (by rfl)
theorem stallInv_step (s : SerState) (e : Ev) (s' : SerState)
    (hq : e ≠ Ev.stop) (h : StallInv s) (hs : step s e = some s') : StallInv s' := by
  obtain ⟨hrun, hdone, hstart, t, hqueue⟩ := h
  cases e with
  | connect =>
    simp only [step, Option.some_inj] at hs
    subst hs
    exact ⟨hrun, hdone, hstart, t, hqueue⟩
  | enqueue =>
    simp only [step, Option.some_inj] at hs
    rw [hqueue] at hs
    simp only [List.isEmpty_cons, Bool.not_false, if_true] at hs
    subst hs
    exact ⟨hrun, hdone, hstart, t ++ [s.nextId], rfl⟩
  | complete i =>
    simp only [step] at hs
    rw [hrun] at hs
    simp at hs
  | fail i =>
    simp only [step] at hs
    rw [hrun] at hs
    simp at hs
  | stop => exact absurd rfl hq

/-- C1 fails on the code: `#command` chains with a fulfillment handler
only, so when operation 0's thunk rejects, the caller's promise is never
settled (0 never enters the completion trace) and the queue never
advances — operation 1 is never started and `isBusy()` stays true
forever, under every continuation that does not call `stop()`. -/
theorem failed_thunk_stalls_queue (evs : List Ev) (hns : Ev.stop ∉ evs)
    (s : SerState)
    (hr : run ([.connect, .enqueue, .enqueue, .fail 0] ++ evs) = some s) :
    0 ∉ s.doneTrace ∧ 1 ∉ s.startTrace ∧ s.isBusy = true := by
  rw [run, runFrom_append] at hr
  have h0 : runFrom SerState.init [.connect, .enqueue, .enqueue, .fail 0] =
      some { connected := true, queue := [0, 1], running := [], nextId := 2,
             startTrace := [0], doneTrace := [], drvTrace := [.op 0] } := by rfl
  rw [h0] at hr
  simp only [Option.some_bind] at hr
  have hstall : StallInv s := by
    refine runFrom_inv_of (Q := fun e => e ≠ Ev.stop) stallInv_step evs _ s ?_ ?_ hr
    · intro e he heq
      exact hns (heq ▸ he)
    · exact ⟨rfl, rfl, rfl, [], rfl⟩
  obtain ⟨hrun, hdone, hstart, t, hqueue⟩ := hstall
  refine ⟨by rw [hdone]; decide, by rw [hstart]; decide, ?_⟩
  simp [SerState.isBusy, hqueue]

theorem failed_thunk_stalls_queue_witness :
    0 ∉ stallWitnessState.doneTrace ∧ 1 ∉ stallWitnessState.startTrace ∧
    stallWitnessState.isBusy = true :=
  failed_thunk_stalls_queue [.enqueue] (by decide) stallWitnessState (by rfl)
theorem queueBound_step (s : SerState) (e : Ev) (s' : SerState)
    (h : QueueBound s) (hs : step s e = some s') : QueueBound s' := by
  cases e with
  | connect =>
    simp only [step, Option.some_inj] at hs
    subst hs
    exact h
  | enqueue =>
    simp only [step, Option.some_inj] at hs
    split at hs <;> subst hs <;> intro j hj <;>
      simp only [startOp] at hj <;>
      rcases List.mem_append.mp hj with h1 | h1
    · exact Nat.lt_succ_of_lt (h j h1)
    · simp only [List.mem_singleton] at h1
      show j < s.nextId + 1
      omega
    · exact Nat.lt_succ_of_lt (h j h1)
    · simp only [List.mem_singleton] at h1
      show j < s.nextId + 1
      omega
  | complete i =>
    simp only [step] at hs
    by_cases hik : i ∈ s.running
    · rw [if_pos hik] at hs
      simp only [Option.some_inj] at hs
      split at hs <;> subst hs <;> intro j hj <;> simp only [startOp] at hj
      · exact h j (List.mem_of_mem_tail hj)
      · exact h j (List.mem_of_mem_tail hj)
    · rw [if_neg hik] at hs
      exact Option.noConfusion hs
  | fail i =>
    simp only [step] at hs
    by_cases hik : i ∈ s.running
    · rw [if_pos hik] at hs
      simp only [Option.some_inj] at hs
      subst hs
      exact h
    · rw [if_neg hik] at hs
      exact Option.noConfusion hs
  | stop =>
    simp only [step] at hs
    split at hs <;> simp only [Option.some_inj] at hs <;> subst hs
    · intro j hj
      simp at hj
    · exact h

theorem neverStarted_step (i : ℕ) (s : SerState) (e : Ev) (s' : SerState)
    (h : NeverStarted i s) (hs : step s e = some s') : NeverStarted i s' := by
  obtain ⟨hnq, hnst, hlt⟩ := h
  cases e with
  | connect =>
    simp only [step, Option.some_inj] at hs
    subst hs
    exact ⟨hnq, hnst, hlt⟩
  | enqueue =>
    simp only [step, Option.some_inj] at hs
    split at hs <;> subst hs
    · refine ⟨?_, hnst, by show i < s.nextId + 1; omega⟩
      intro hmem
      rcases List.mem_append.mp hmem with h1 | h1
      · exact hnq h1
      · simp only [List.mem_singleton] at h1
        omega
    · refine ⟨?_, ?_, by show i < s.nextId + 1; omega⟩
      · intro hmem
        simp only [startOp] at hmem
        rcases List.mem_append.mp hmem with h1 | h1
        · exact hnq h1
        · simp only [List.mem_singleton] at h1
          omega
      · intro hmem
        simp only [startOp] at hmem
        rcases List.mem_append.mp hmem with h1 | h1
        · exact hnst h1
        · simp only [List.mem_singleton] at h1
          omega
  | complete j =>
    simp only [step] at hs
    by_cases hjk : j ∈ s.running
    case neg =>
      rw [if_neg hjk] at hs
      exact Option.noConfusion hs
    rw [if_pos hjk] at hs
    simp only [Option.some_inj] at hs
    have hnqt : i ∉ s.queue.tail := fun hm => hnq (List.mem_of_mem_tail hm)
    cases hq : s.queue.tail with
    | nil =>
      rw [hq] at hs
      simp only [List.isEmpty_nil, if_true] at hs
      subst hs
      exact ⟨List.not_mem_nil i, hnst, hlt⟩
    | cons h1 t1 =>
      rw [hq] at hs
      simp only [List.isEmpty_cons, Bool.false_eq_true, if_false, List.headD_cons] at hs
      subst hs
      have hh1 : h1 ≠ i := by
        intro he
        exact hnqt (hq ▸ (he ▸ List.mem_cons_self h1 t1))
      refine ⟨?_, ?_, hlt⟩
      · show i ∉ h1 :: t1
        rw [← hq]
        exact hnqt
      · simp only [startOp]
        intro hmem
        rcases List.mem_append.mp hmem with hm | hm
        · exact hnst hm
        · simp only [List.mem_singleton] at hm
          exact hh1 hm.symm
  | fail j =>
    simp only [step] at hs
    by_cases hjk : j ∈ s.running
    · rw [if_pos hjk] at hs
      simp only [Option.some_inj] at hs
      subst hs
      exact ⟨hnq, hnst, hlt⟩
    · rw [if_neg hjk] at hs
      exact Option.noConfusion hs
  | stop =>
    simp only [step] at hs
    split at hs <;> simp only [Option.some_inj] at hs <;> subst hs
    · exact ⟨List.not_mem_nil i, hnst, hlt⟩
    · exact ⟨hnq, hnst, hlt⟩

/-- C9: a `stop()` on a connected instance sends the emergency-stop call
to the driver immediately — appended to the driver trace in the same
step, not enqueued — and empties the pending queue, so `isBusy()` is
false immediately afterward, and every operation that was queued but not
yet started is never started (its driver calls are never issued) in any
continuation. -/
theorem stop_flushes_queue (evs1 : List Ev) (s s' : SerState)
    (hr : run evs1 = some s) (hc : s.connected = true)
    (hstop : step s .stop = some s') :
    s'.drvTrace = s.drvTrace ++ [DrvEv.estop] ∧
    s'.queue = [] ∧
    s'.isBusy = false ∧
    ∀ i ∈ s.queue, i ∉ s.startTrace →
      ∀ evs2 s2, runFrom s' evs2 = some s2 → i ∉ s2.startTrace := by
  have hs' : s' = { s with drvTrace := s.drvTrace ++ [DrvEv.estop], queue := [] } := by
    simp only [step] at hstop
    rw [if_pos hc] at hstop
    exact (Option.some_inj.mp hstop).symm
  have hqb : QueueBound s := by
    refine runFrom_inv_of (Q := fun _ => True)
      (fun sa e sb _ => queueBound_step sa e sb) evs1 SerState.init s
      (fun _ _ => trivial) ?_ hr
    intro j hj
    exact absurd hj (List.not_mem_nil j)
  refine ⟨by rw [hs'], by rw [hs'], by rw [hs']; rfl, ?_⟩
  intro i hiq hist evs2 s2 hr2
  have hns : NeverStarted i s' := by
    rw [hs']
    exact ⟨List.not_mem_nil i, hist, hqb i hiq⟩
  have hfin : NeverStarted i s2 :=
    runFrom_inv_of (Q := fun _ => True)
      (fun sa e sb _ => neverStarted_step i sa e sb) evs2 s' s2
      (fun _ _ => trivial) hns hr2
  exact hfin.2.1

theorem stop_flushes_queue_witness :
    stopWitnessPost.drvTrace = stopWitnessPre.drvTrace ++ [DrvEv.estop] ∧
    stopWitnessPost.queue = [] ∧
    stopWitnessPost.isBusy = false ∧
    ∀ i ∈ stopWitnessPre.queue, i ∉ stopWitnessPre.startTrace →
      ∀ evs2 s2, runFrom stopWitnessPost evs2 = some s2 → i ∉ s2.startTrace :=
  stop_flushes_queue [.connect, .enqueue, .enqueue, .enqueue, .enqueue]
    stopWitnessPre stopWitnessPost (by rfl) rfl (by rfl)
